import Mathlib

/-!
Shallow embedding of the goerr structured-error library.

The model follows the source files `typed_values.go` (the `Error` type, its
functional options, merge traversal, typed-value lookup, identity comparison),
`tag.go` (tags), and `errors.go` (the `Errors` aggregate: `Join`, `Append`,
nil-safe methods).  Go `map[string]any` fields are modelled as lookup
functions `String → Option AnyVal`; Go pointers are modelled by a `ref : Nat`
allocation token carried by each node (fresh construction = fresh token), and
a nil `error` is `Option Err = none`.
-/

namespace Goerr

/-- Runtime type tags for the `any`-typed values stored in an error.  Models
the dynamic type used by Go's type assertion `value.(T)`. -/
inductive Ty where
  | tstr
  | tint
  | tbool
deriving DecidableEq, Repr

/-- A boxed dynamically-typed value (`any` in the Go source). -/
inductive AnyVal where
  | vstr (s : String)
  | vint (n : Int)
  | vbool (b : Bool)
deriving DecidableEq, Repr

/-- The dynamic type of a boxed value, used for the `value.(T)` check in
`getTypedValueFromError`. -/
def AnyVal.ty : AnyVal → Ty
  | .vstr _ => .tstr
  | .vint _ => .tint
  | .vbool _ => .tbool

/-- One captured stack frame (`Stack` in the source: function, file, line). -/
structure Frame where
  func : String
  file : String
  line : Nat
deriving DecidableEq, Repr

/-- A Go `map[string]any`, modelled as a lookup function. -/
def StrMap : Type := String → Option AnyVal

/-- The empty map (`make(values)` / `make(map[string]any)`). -/
def StrMap.empty : StrMap := fun _ => none

/-- Map store: `m[k] = v`. -/
def StrMap.insert (m : StrMap) (k : String) (v : AnyVal) : StrMap :=
  fun k' => if k' = k then some v else m k'

/-- Merge of the source's `for key, value := range src { merged[key] = value }`
loop: every binding of `top` overwrites `base`. -/
def StrMap.override (base top : StrMap) : StrMap :=
  fun k => match top k with
    | some v => some v
    | none => base k

/-- A Go `tags` set (`map[tag]struct{}`), modelled as a membership function on
the tag's underlying string. -/
def TagSet : Type := String → Bool

def TagSet.empty : TagSet := fun _ => false

/-- `t[tag] = struct{}{}`. -/
def TagSet.insert (ts : TagSet) (t : String) : TagSet :=
  fun t' => t' = t || ts t'

/-- Set union with the same orientation as `StrMap.override` (for sets the
orientation is irrelevant). -/
def TagSet.union (base top : TagSet) : TagSet :=
  fun t => top t || base t

/-- The error universe: a value of Go's `error` interface as far as this
library can observe it.
* `goErr` is a `*goerr.Error` node: allocation token, `msg`, `id`, stack,
  string-keyed values, typed values (keyed by the typed key's name), tag set,
  and the `cause` link (`nil` cause = `none`).
* `foreign` is any non-goerr error: it exposes only its `Error()` string and
  (optionally) a single wrapped error via `Unwrap() error`.
* `agg` is a non-nil `*goerr.Errors` aggregate used as an `error` value. -/
inductive Err where
  | goErr (ref : Nat) (msg : String) (id : String) (st : List Frame)
      (values : StrMap) (typedValues : StrMap) (tagset : TagSet)
      (cause : Option Err)
  | foreign (ref : Nat) (msg : String) (cause : Option Err)
  | agg (ref : Nat) (errs : List Err)

mutual

/-- `goerr.Unwrap(err)`: `errors.As(err, &e)` for `e : *goerr.Error`.  Walks
the unwrap chain: a `*Error` matches immediately; a foreign error is unwrapped
through its single cause; a `*Errors` aggregate searches its members in order
(its `As` method / multi-`Unwrap`). -/
def unwrapGoerr : Err → Option Err
  | .goErr ref msg id st v tv tg c => some (.goErr ref msg id st v tv tg c)
  | .foreign _ _ none => none
  | .foreign _ _ (some c) => unwrapGoerr c
  | .agg _ errs => unwrapGoerrList errs

/-- Member-list walk of `errors.As` over an aggregate's `errs` slice. -/
def unwrapGoerrList : List Err → Option Err
  | [] => none
  | e :: rest =>
    match unwrapGoerr e with
    | some g => some g
    | none => unwrapGoerrList rest

end

/-! ## Construction: the option mechanism, `New`, `Wrap` (from typed_values.go) -/

/-- The mutable fields of a `*Error` under construction (`newError` allocates
this record, then each `Option` mutates it). -/
structure ErrCore where
  msg : String
  id : String
  st : List Frame
  cause : Option Err
  values : StrMap
  typedValues : StrMap
  tagset : TagSet

/-- `goerr.Option`: a function mutating an error under construction. -/
def EOption : Type := ErrCore → ErrCore

/-- `goerr.Value(key, value)`: sets `err.values[key] = value`. -/
def OValue (key : String) (value : AnyVal) : EOption :=
  fun e => { e with values := e.values.insert key value }

/-- `goerr.TypedValue(key, value)` / `goerr.TV`: sets
`err.typedValues[key.name] = value`. -/
structure TypedKey where
  name : String
  ty : Ty
deriving DecidableEq, Repr

def OTypedValue (key : TypedKey) (value : AnyVal) : EOption :=
  fun e => { e with typedValues := e.typedValues.insert key.name value }

/-- `goerr.ID(id)`: sets `err.id = id`. -/
def OID (id : String) : EOption :=
  fun e => { e with id := id }

/-- `goerr.Tag(t)`: adds `t` to `err.tags`.  A goerr tag is an immutable
wrapper over a string, so it is modelled by its string. -/
def OTag (t : String) : EOption :=
  fun e => { e with tagset := e.tagset.insert t }

/-- `newError(options...)`: fresh record with captured stack, empty maps,
empty id and tag set, then the options applied in order.  The captured stack
is environment-dependent, so it is a parameter, as is the fresh allocation
token. -/
def newError (st : List Frame) (options : List EOption) : ErrCore :=
  options.foldl (fun e opt => opt e)
    { msg := "", id := "", st := st, cause := none,
      values := StrMap.empty, typedValues := StrMap.empty,
      tagset := TagSet.empty }

/-- Packs a finished construction record into an allocated node. -/
def ErrCore.toErr (ref : Nat) (e : ErrCore) : Err :=
  .goErr ref e.msg e.id e.st e.values e.typedValues e.tagset e.cause

/-- `goerr.New(msg, options...)`: `newError(options...)` then `err.msg = msg`. -/
def New (ref : Nat) (st : List Frame) (msg : String) (options : List EOption) : Err :=
  ErrCore.toErr ref { newError st options with msg := msg }

/-- `goerr.Wrap(cause, msg, options...)`: `newError(options...)`, then
`err.msg = msg` and `err.cause = cause` (a nil cause is permitted). -/
def Wrap (ref : Nat) (st : List Frame) (cause : Option Err) (msg : String)
    (options : List EOption) : Err :=
  ErrCore.toErr ref { newError st options with msg := msg, cause := cause }

/-! ## Read-side accessors on `Err` nodes -/

/-- The local (unmerged) string-keyed value map of a node; the `values` field
of a `*Error`, empty for non-goerr errors which have no such field. -/
def localValues : Err → StrMap
  | .goErr _ _ _ _ v _ _ _ => v
  | _ => StrMap.empty

/-- The local typed-value map of a node. -/
def localTypedValues : Err → StrMap
  | .goErr _ _ _ _ _ tv _ _ => tv
  | _ => StrMap.empty

/-- The local tag set of a node. -/
def localTags : Err → TagSet
  | .goErr _ _ _ _ _ _ tg _ => tg
  | _ => TagSet.empty

/-- The `id` field of a `*Error` node (empty for other errors). -/
def errId : Err → String
  | .goErr _ _ id _ _ _ _ _ => id
  | _ => ""

/-- The `cause` field / single-`Unwrap` result of a node (the `Unwrap()`
method of `*Error` returns `x.cause`; a foreign error may also wrap one
cause; an aggregate has no single unwrap). -/
def errCause : Err → Option Err
  | .goErr _ _ _ _ _ _ _ c => c
  | .foreign _ _ c => c
  | .agg _ _ => none

/-- The stack field of a `*Error` node. -/
def errStack : Err → List Frame
  | .goErr _ _ _ st _ _ _ _ => st
  | _ => []

/-- The allocation token: stands for the node's pointer. -/
def errRef : Err → Nat
  | .goErr r _ _ _ _ _ _ _ => r
  | .foreign r _ _ => r
  | .agg r _ => r

/-! ## Merge traversal (`mergedValues`, `mergedTypedValues`, `mergedTags`)

The source pattern is
```
merged := make(...)
if cause := x.Unwrap(); cause != nil {
    if err := Unwrap(cause); err != nil { merged = err.mergedXxx() }
}
for k, v := range x.xxx { merged[k] = v }
```
i.e. recurse on the first goerr node found anywhere in the cause's unwrap
chain (`Unwrap` is `errors.As`, which walks through foreign wrappers), then
overlay the local map.  To keep the recursion structural it is phrased as a
mutual family: `...Via c` computes, for an arbitrary error `c` standing in
cause position, `mergedXxx(unwrapGoerr c)` (empty when no goerr node is
found); `mergedXxx_via_unwrap` below proves that reading. -/

mutual

/-- Contribution of the `cause` field to `mergedValues`. -/
def mergedValuesCause : Option Err → StrMap
  | none => StrMap.empty
  | some c => mergedValuesVia c

/-- `mergedValues` of the first goerr node reachable from `c` by
`errors.As`-unwrapping (empty map when there is none). -/
def mergedValuesVia : Err → StrMap
  | .goErr _ _ _ _ vals _ _ cause => StrMap.override (mergedValuesCause cause) vals
  | .foreign _ _ none => StrMap.empty
  | .foreign _ _ (some c) => mergedValuesVia c
  | .agg _ errs => mergedValuesViaList errs

/-- Walk of an aggregate's members, matching `unwrapGoerrList`. -/
def mergedValuesViaList : List Err → StrMap
  | [] => StrMap.empty
  | e :: rest =>
    if (unwrapGoerr e).isSome then mergedValuesVia e else mergedValuesViaList rest

end

/-- `(*Error).mergedValues` (also `(*Error).Values`): merged map of the cause
chain with the local values overlaid on top.  Only goerr nodes carry it. -/
def mergedValues : Err → StrMap
  | .goErr ref msg id st v tv tg c => mergedValuesVia (.goErr ref msg id st v tv tg c)
  | _ => StrMap.empty

mutual

/-- Contribution of the `cause` field to `mergedTypedValues`. -/
def mergedTypedValuesCause : Option Err → StrMap
  | none => StrMap.empty
  | some c => mergedTypedValuesVia c

/-- `mergedTypedValues` of the first goerr node reachable from `c`. -/
def mergedTypedValuesVia : Err → StrMap
  | .goErr _ _ _ _ _ tvs _ cause => StrMap.override (mergedTypedValuesCause cause) tvs
  | .foreign _ _ none => StrMap.empty
  | .foreign _ _ (some c) => mergedTypedValuesVia c
  | .agg _ errs => mergedTypedValuesViaList errs

def mergedTypedValuesViaList : List Err → StrMap
  | [] => StrMap.empty
  | e :: rest =>
    if (unwrapGoerr e).isSome then mergedTypedValuesVia e else mergedTypedValuesViaList rest

end

/-- `(*Error).mergedTypedValues` (also `(*Error).TypedValues`). -/
def mergedTypedValues : Err → StrMap
  | .goErr ref msg id st v tv tg c => mergedTypedValuesVia (.goErr ref msg id st v tv tg c)
  | _ => StrMap.empty

mutual

/-- Contribution of the `cause` field to `mergedTags`. -/
def mergedTagsCause : Option Err → TagSet
  | none => TagSet.empty
  | some c => mergedTagsVia c

/-- `mergedTags` of the first goerr node reachable from `c`. -/
def mergedTagsVia : Err → TagSet
  | .goErr _ _ _ _ _ _ tgs cause => TagSet.union (mergedTagsCause cause) tgs
  | .foreign _ _ none => TagSet.empty
  | .foreign _ _ (some c) => mergedTagsVia c
  | .agg _ errs => mergedTagsViaList errs

def mergedTagsViaList : List Err → TagSet
  | [] => TagSet.empty
  | e :: rest =>
    if (unwrapGoerr e).isSome then mergedTagsVia e else mergedTagsViaList rest

end

/-- `(*Error).mergedTags` (the set underlying `(*Error).Tags`; `Tags()`
re-adds the local tags, which is a no-op at the set level, then lists the set
in Go's map order — the set is the deterministic content). -/
def mergedTags : Err → TagSet
  | .goErr ref msg id st v tv tg c => mergedTagsVia (.goErr ref msg id st v tv tg c)
  | _ => TagSet.empty

/-- `(*Error).HasTag(tag)`: membership in `mergedTags`. -/
def Error.hasTag (x : Err) (t : String) : Bool :=
  mergedTags x t

mutual

/-- `getTypedValueFromError` lifted to an arbitrary error in cause position:
the typed-value lookup at the first goerr node reachable by unwrapping.
At a goerr node whose typed map contains `key.name`, the stored value is
definitive: it is returned iff its dynamic type matches `key`'s type
(`value.(T)`), and on mismatch the search stops (`zero, false`).  Only when
the name is absent does the search continue into the cause. -/
def getTypedVia (key : TypedKey) : Err → Option AnyVal
  | .goErr _ _ _ _ _ tvs _ cause =>
    match tvs key.name with
    | some v => if v.ty = key.ty then some v else none
    | none => getTypedCause key cause
  | .foreign _ _ none => none
  | .foreign _ _ (some c) => getTypedVia key c
  | .agg _ errs => getTypedViaList key errs

def getTypedCause (key : TypedKey) : Option Err → Option AnyVal
  | none => none
  | some c => getTypedVia key c

def getTypedViaList (key : TypedKey) : List Err → Option AnyVal
  | [] => none
  | e :: rest =>
    if (unwrapGoerr e).isSome then getTypedVia key e else getTypedViaList key rest

end

/-- `goerr.GetTypedValue(err, key)`: unwrap `err` to a goerr node and run
`getTypedValueFromError`.  `none` models `(zero, false)`; `some v` models
`(v, true)` (the source guarantees the returned value's dynamic type matches
the key, which `getTyped_ty_p` below re-proves). -/
def GetTypedValue (err : Err) (key : TypedKey) : Option AnyVal :=
  getTypedVia key err

/-! ## Error message chain -/

mutual

/-- `Error() string` of an arbitrary error value.
* goerr node: the local message if `cause == nil`, else
  `fmt.Sprintf("%s: %v", msg, cause.Error())`.
* foreign error: its own message string.
* aggregate: `""` for zero members, the single member's message for one,
  else the members' messages joined by newlines. -/
def errError : Err → String
  | .goErr _ msg _ _ _ _ _ none => msg
  | .goErr _ msg _ _ _ _ _ (some c) => msg ++ ": " ++ errError c
  | .foreign _ msg _ => msg
  | .agg _ [] => ""
  | .agg _ [e] => errError e
  | .agg _ (e1 :: e2 :: rest) => String.intercalate "\n" (errErrorList (e1 :: e2 :: rest))

/-- Member messages of an aggregate, in insertion order. -/
def errErrorList : List Err → List String
  | [] => []
  | e :: rest => errError e :: errErrorList rest

end

/-! ## Identity comparison -/

/-- Go interface equality `x == target` between two error values of pointer
dynamic type: same dynamic type and same pointer (allocation token). -/
def refEq (x target : Err) : Bool :=
  match x, target with
  | .goErr r _ _ _ _ _ _ _, .goErr r' _ _ _ _ _ _ _ => r = r'
  | .foreign r _ _, .foreign r' _ _ => r = r'
  | .agg r _, .agg r' _ => r = r'
  | _, _ => false

/-- `(*Error).Is(target)`: if `errors.As` unwraps `target` to a goerr node
whose id equals this error's non-empty id, true; otherwise plain interface
equality `x == target`. -/
def Error.is (x target : Err) : Bool :=
  (match unwrapGoerr target with
   | some g => errId x != "" && errId x == errId g
   | none => false)
  || refEq x target

/-! ## Member wrap (`(*Error).Wrap`) -/

/-- `(*Error).Wrap(cause, options...)`: `err := newError()` (fresh stack and
allocation, empty maps), then `x.copy(err, options...)` — which overwrites
`msg`, `id` and `cause` with `x`'s, clones `x`'s tag set, values and typed
values (the stack is not copied), and then applies the options — and finally
`err.cause = cause`.  In this functional model the map clone is the lookup
function itself; mutation of one node can never affect another. -/
def Error.wrap (x : Err) (ref : Nat) (st : List Frame) (cause : Option Err)
    (options : List EOption) : Err :=
  match x with
  | .goErr _ msg id _ vals tvs tgs xcause =>
    let core0 := newError st []
    let core1 : ErrCore :=
      { core0 with msg := msg, id := id, cause := xcause,
                   tagset := tgs, values := vals, typedValues := tvs }
    let core2 := options.foldl (fun e opt => opt e) core1
    ErrCore.toErr ref { core2 with cause := cause }
  | e => e

/-! ## Stack trimming -/

/-- Modelled from the spec: the stack-trim helper `unstack` (the source file
`stack.go` is absent from the sources; only its callers and tests remain).
Spec §4.1: "`trim(stack, n)` removes the first `n` frames (closest to capture
point) and returns a new stack view; trimming past the end yields an empty
stack, never an error." -/
def unstack (st : List Frame) (n : Nat) : List Frame :=
  st.drop n

/-- `(*Error).UnstackN(n)`: `x.st = unstack(x.st, n); return x`. -/
def Error.unstackN (x : Err) (n : Nat) : Err :=
  match x with
  | .goErr ref msg id st v tv tg c => .goErr ref msg id (unstack st n) v tv tg c
  | e => e

/-- `(*Error).Unstack()`: `x.st = unstack(x.st, 1); return x`. -/
def Error.unstack (x : Err) : Err :=
  match x with
  | .goErr ref msg id st v tv tg c => .goErr ref msg id (Goerr.unstack st 1) v tv tg c
  | e => e

/-! ## The `Errors` aggregate (errors.go) -/

/-- The member slice of an allocated `*Errors`.  A `*Errors` reference
(possibly nil) is `Option Errs`, `none` being the nil pointer. -/
abbrev Errs : Type := List Err

/-- `goerr.Join(errs...)`: filter out nil entries; nil aggregate if nothing
remains, else an aggregate of exactly the filtered entries in order (no
flattening). -/
def Join (errs : List (Option Err)) : Option Errs :=
  let filtered := errs.filterMap id
  if filtered.isEmpty then none else some filtered

/-- Loop body of `Append`: skip nil; splice in the members of a direct
`*Errors` argument (one level); append anything else as a single element. -/
def flattenInto (acc : Errs) (oe : Option Err) : Errs :=
  match oe with
  | none => acc
  | some (.agg _ nested) => acc ++ nested
  | some e => acc ++ [e]

/-- `goerr.Append(base, errs...)`: returns `base` unchanged when no errors
are given; otherwise allocates a fresh empty aggregate if `base` is nil and
appends each non-nil entry, flattening exactly one level of `*Errors`. -/
def Append (base : Option Errs) (errs : List (Option Err)) : Option Errs :=
  if errs.isEmpty then base
  else some (errs.foldl flattenInto (base.getD []))

/-- `(*Errors).Error()`: `""` when nil or empty, the single member's message
for one member, else newline-joined messages. -/
def Errors.error : Option Errs → String
  | none => ""
  | some [] => ""
  | some [e] => errError e
  | some (e1 :: e2 :: rest) => String.intercalate "\n" ((e1 :: e2 :: rest).map errError)

/-- `(*Errors).Unwrap()`: nil slice when nil or empty, else a copy of the
member slice (the aliasing aspect is modelled separately in the store-level
section below). -/
def Errors.unwrap : Option Errs → Option (List Err)
  | none => none
  | some errs => if errs.isEmpty then none else some errs

/-- `(*Errors).Errors()`: same contract as `Unwrap()`. -/
def Errors.errors : Option Errs → Option (List Err)
  | none => none
  | some errs => if errs.isEmpty then none else some errs

/-- `(*Errors).IsEmpty()`: nil or no members. -/
def Errors.isEmpty : Option Errs → Bool
  | none => true
  | some errs => errs.isEmpty

/-- `(*Errors).Len()`. -/
def Errors.len : Option Errs → Nat
  | none => 0
  | some errs => errs.length

/-- `(*Errors).ErrorOrNil()`: nil for a nil or empty aggregate, else the
aggregate itself. -/
def Errors.errorOrNil : Option Errs → Option Errs
  | none => none
  | some errs => if errs.isEmpty then none else some errs

mutual

/-- Model of the standard `errors.Is(err, target)` walk: interface equality,
then the node's own `Is` method (`*Error` compares ids, `*Errors` checks its
members), then recursion into the unwrap chain. -/
def errorsIs (err target : Err) : Bool :=
  refEq err target ||
    match err with
    | .goErr r m i st v tv tg c =>
      Error.is (.goErr r m i st v tv tg c) target ||
        (match c with
         | some cc => errorsIs cc target
         | none => false)
    | .foreign _ _ (some c) => errorsIs c target
    | .foreign _ _ none => false
    | .agg _ errs => errorsIsList errs target

def errorsIsList : List Err → Err → Bool
  | [], _ => false
  | e :: rest, target => errorsIs e target || errorsIsList rest target

end

/-- `(*Errors).Is(target)`: nil-safe; true iff `errors.Is` matches some
member. -/
def Errors.is (x : Option Errs) (target : Err) : Bool :=
  match x with
  | none => false
  | some errs => errs.any (fun e => errorsIs e target)

mutual

/-- Model of the standard `errors.As(err, target)` walk for an arbitrary
target type, given as the predicate `p` on a node's dynamic type:
direct match, the node's own `As` method (only `*Errors` has one), then the
unwrap chain. -/
def errorsAs (p : Err → Bool) : Err → Bool
  | .goErr r m i st v tv tg c =>
    p (.goErr r m i st v tv tg c) ||
      (match c with
       | some cc => errorsAs p cc
       | none => false)
  | .foreign r m c =>
    p (.foreign r m c) ||
      (match c with
       | some cc => errorsAs p cc
       | none => false)
  | .agg r errs => p (.agg r errs) || errorsAsList p errs

def errorsAsList (p : Err → Bool) : List Err → Bool
  | [] => false
  | e :: rest => errorsAs p e || errorsAsList p rest

end

/-- `(*Errors).As(target)`: nil-safe; true iff `errors.As` matches some
member. -/
def Errors.as (x : Option Errs) (p : Err → Bool) : Bool :=
  match x with
  | none => false
  | some errs => errs.any (fun e => errorsAs p e)

/-- `goerr.AsErrors(err)`: `errors.As(err, &e)` for `e : *Errors` — a direct
aggregate matches; `*Error` and foreign errors are unwrapped through their
single cause. -/
def asErrors : Err → Option Errs
  | .agg _ l => some l
  | .goErr _ _ _ _ _ _ _ (some c) => asErrors c
  | .goErr _ _ _ _ _ _ _ none => none
  | .foreign _ _ (some c) => asErrors c
  | .foreign _ _ none => none

/-- An aggregate found by `asErrors` sits strictly inside the error it was
found in (termination measure for `hasTagPkg`). -/
theorem asErrors_sizeOf : ∀ (e : Err) (l : Errs), asErrors e = some l → sizeOf l < sizeOf e
  | .agg r l', l, h => by
    simp only [asErrors, Option.some.injEq] at h
    subst h
    simp only [Err.agg.sizeOf_spec]
    omega
  | .goErr r m i st v tv tg (some c), l, h => by
    simp only [asErrors] at h
    have := asErrors_sizeOf c l h
    simp only [Err.goErr.sizeOf_spec, Option.some.sizeOf_spec]
    omega
  | .goErr _ _ _ _ _ _ _ none, l, h => by simp [asErrors] at h
  | .foreign r m (some c), l, h => by
    simp only [asErrors] at h
    have := asErrors_sizeOf c l h
    simp only [Err.foreign.sizeOf_spec, Option.some.sizeOf_spec]
    omega
  | .foreign _ _ none, l, h => by simp [asErrors] at h

/-- `goerr.HasTag(err, tag)` (package function): first try `AsErrors` — an
aggregate delegates to its members (the body of `(*Errors).HasTag` on a
non-nil receiver) — then `Unwrap` to a goerr node and use its `HasTag`
method, else false. -/
def hasTagPkg (e : Err) (t : String) : Bool :=
  match h : asErrors e with
  | some l => l.attach.any fun m => hasTagPkg m.1 t
  | none =>
    match unwrapGoerr e with
    | some g => Error.hasTag g t
    | none => false
termination_by sizeOf e
decreasing_by
  have h1 := asErrors_sizeOf e l h
  have h2 := List.sizeOf_lt_of_mem m.2
  omega

/-- `(*Errors).HasTag(tag)`: nil-safe; true iff some member carries the tag
per the package-level `HasTag` contract. -/
def Errors.hasTag : Option Errs → String → Bool
  | none, _ => false
  | some errs, t => errs.any fun e => hasTagPkg e t

/-! ## The traversal chain (specification-side view)

`goChain e` is the sequence of goerr nodes the merge traversal visits
starting from an arbitrary error `e` in traversal position: the node itself
(then its cause chain) when `e` is a goerr node, otherwise the chain of the
first goerr node reachable by `errors.As`-unwrapping.  The lemmas below prove
that every merge-read accessor is a simple fold over this chain, which is the
shape the specification describes. -/

mutual

def goChain : Err → List Err
  | .goErr r m i st v tv tg c => .goErr r m i st v tv tg c :: goChainCause c
  | .foreign _ _ none => []
  | .foreign _ _ (some c) => goChain c
  | .agg _ errs => goChainList errs

def goChainCause : Option Err → List Err
  | none => []
  | some c => goChain c

def goChainList : List Err → List Err
  | [] => []
  | e :: rest => if (unwrapGoerr e).isSome then goChain e else goChainList rest

end

mutual

/-- The merged string-value map is keywise the first hit along the traversal
chain, outermost node first — i.e. deepest-cause-first merge where shallower
layers overwrite on key collision. -/
theorem mergedValuesVia_chain : ∀ (e : Err) (k : String),
    mergedValuesVia e k = (goChain e).findSome? (fun n => localValues n k)
  | .goErr r m i st v tv tg c, k => by
    simp only [mergedValuesVia, goChain, List.findSome?_cons, localValues, StrMap.override]
    cases hv : v k with
    | some val => rfl
    | none => exact mergedValuesCause_chain c k
  | .foreign _ _ none, k => by
    simp [mergedValuesVia, goChain, StrMap.empty]
  | .foreign _ _ (some c), k => by
    simp only [mergedValuesVia, goChain]
    exact mergedValuesVia_chain c k
  | .agg _ errs, k => by
    simp only [mergedValuesVia, goChain]
    exact mergedValuesViaList_chain errs k

theorem mergedValuesCause_chain : ∀ (c : Option Err) (k : String),
    mergedValuesCause c k = (goChainCause c).findSome? (fun n => localValues n k)
  | none, k => by simp [mergedValuesCause, goChainCause, StrMap.empty]
  | some c, k => by
    simp only [mergedValuesCause, goChainCause]
    exact mergedValuesVia_chain c k

theorem mergedValuesViaList_chain : ∀ (l : List Err) (k : String),
    mergedValuesViaList l k = (goChainList l).findSome? (fun n => localValues n k)
  | [], k => by simp [mergedValuesViaList, goChainList, StrMap.empty]
  | e :: rest, k => by
    simp only [mergedValuesViaList, goChainList]
    by_cases h : (unwrapGoerr e).isSome
    · simp only [h, if_true]
      exact mergedValuesVia_chain e k
    · simp only [h, if_false]
      exact mergedValuesViaList_chain rest k

end

mutual

/-- Same chain characterization for the merged typed-value map. -/
theorem mergedTypedValuesVia_chain : ∀ (e : Err) (k : String),
    mergedTypedValuesVia e k = (goChain e).findSome? (fun n => localTypedValues n k)
  | .goErr r m i st v tv tg c, k => by
    simp only [mergedTypedValuesVia, goChain, List.findSome?_cons, localTypedValues,
      StrMap.override]
    cases hv : tv k with
    | some val => rfl
    | none => exact mergedTypedValuesCause_chain c k
  | .foreign _ _ none, k => by
    simp [mergedTypedValuesVia, goChain, StrMap.empty]
  | .foreign _ _ (some c), k => by
    simp only [mergedTypedValuesVia, goChain]
    exact mergedTypedValuesVia_chain c k
  | .agg _ errs, k => by
    simp only [mergedTypedValuesVia, goChain]
    exact mergedTypedValuesViaList_chain errs k

theorem mergedTypedValuesCause_chain : ∀ (c : Option Err) (k : String),
    mergedTypedValuesCause c k = (goChainCause c).findSome? (fun n => localTypedValues n k)
  | none, k => by simp [mergedTypedValuesCause, goChainCause, StrMap.empty]
  | some c, k => by
    simp only [mergedTypedValuesCause, goChainCause]
    exact mergedTypedValuesVia_chain c k

theorem mergedTypedValuesViaList_chain : ∀ (l : List Err) (k : String),
    mergedTypedValuesViaList l k = (goChainList l).findSome? (fun n => localTypedValues n k)
  | [], k => by simp [mergedTypedValuesViaList, goChainList, StrMap.empty]
  | e :: rest, k => by
    simp only [mergedTypedValuesViaList, goChainList]
    by_cases h : (unwrapGoerr e).isSome
    · simp only [h, if_true]
      exact mergedTypedValuesVia_chain e k
    · simp only [h, if_false]
      exact mergedTypedValuesViaList_chain rest k

end

mutual

/-- The merged tag set is the union of the local tag sets along the chain. -/
theorem mergedTagsVia_chain : ∀ (e : Err) (t : String),
    mergedTagsVia e t = (goChain e).any (fun n => localTags n t)
  | .goErr r m i st v tv tg c, t => by
    simp only [mergedTagsVia, goChain, List.any_cons, TagSet.union]
    rw [mergedTagsCause_chain c t]
    rfl
  | .foreign _ _ none, t => by
    simp [mergedTagsVia, goChain, TagSet.empty]
  | .foreign _ _ (some c), t => by
    simp only [mergedTagsVia, goChain]
    exact mergedTagsVia_chain c t
  | .agg _ errs, t => by
    simp only [mergedTagsVia, goChain]
    exact mergedTagsViaList_chain errs t

theorem mergedTagsCause_chain : ∀ (c : Option Err) (t : String),
    mergedTagsCause c t = (goChainCause c).any (fun n => localTags n t)
  | none, t => by simp [mergedTagsCause, goChainCause, TagSet.empty]
  | some c, t => by
    simp only [mergedTagsCause, goChainCause]
    exact mergedTagsVia_chain c t

theorem mergedTagsViaList_chain : ∀ (l : List Err) (t : String),
    mergedTagsViaList l t = (goChainList l).any (fun n => localTags n t)
  | [], t => by simp [mergedTagsViaList, goChainList, TagSet.empty]
  | e :: rest, t => by
    simp only [mergedTagsViaList, goChainList]
    by_cases h : (unwrapGoerr e).isSome
    · simp only [h, if_true]
      exact mergedTagsVia_chain e t
    · simp only [h, if_false]
      exact mergedTagsViaList_chain rest t

end

mutual

/-- The typed-value lookup is the type-check applied to the raw value stored
at the first chain node that carries the key's name at all: a name hit with
the wrong dynamic type yields `none` without falling through to deeper
nodes. -/
theorem getTypedVia_chain : ∀ (key : TypedKey) (e : Err),
    getTypedVia key e = ((goChain e).findSome? (fun n => localTypedValues n key.name)).bind
      (fun v => if v.ty = key.ty then some v else none)
  | key, .goErr r m i st v tv tg c => by
    simp only [getTypedVia, goChain, List.findSome?_cons, localTypedValues]
    cases hv : tv key.name with
    | some val => rfl
    | none => exact getTypedCause_chain key c
  | key, .foreign _ _ none => by
    simp [getTypedVia, goChain]
  | key, .foreign _ _ (some c) => by
    simp only [getTypedVia, goChain]
    exact getTypedVia_chain key c
  | key, .agg _ errs => by
    simp only [getTypedVia, goChain]
    exact getTypedViaList_chain key errs

theorem getTypedCause_chain : ∀ (key : TypedKey) (c : Option Err),
    getTypedCause key c = ((goChainCause c).findSome? (fun n => localTypedValues n key.name)).bind
      (fun v => if v.ty = key.ty then some v else none)
  | key, none => by simp [getTypedCause, goChainCause]
  | key, some c => by
    simp only [getTypedCause, goChainCause]
    exact getTypedVia_chain key c

theorem getTypedViaList_chain : ∀ (key : TypedKey) (l : List Err),
    getTypedViaList key l = ((goChainList l).findSome? (fun n => localTypedValues n key.name)).bind
      (fun v => if v.ty = key.ty then some v else none)
  | key, [] => by simp [getTypedViaList, goChainList]
  | key, e :: rest => by
    simp only [getTypedViaList, goChainList]
    by_cases h : (unwrapGoerr e).isSome
    · simp only [h, if_true]
      exact getTypedVia_chain key e
    · simp only [h, if_false]
      exact getTypedViaList_chain key rest

end

/-- Whether a node is a `*goerr.Error`. -/
def Err.isGoNode : Err → Bool
  | .goErr _ _ _ _ _ _ _ _ => true
  | _ => false

mutual

/-- Unwrapping commutes with the traversal chain: the chain of any error is
the chain of the goerr node `errors.As` finds in it. -/
theorem goChain_unwrap : ∀ (e g : Err), unwrapGoerr e = some g → goChain e = goChain g
  | .goErr r m i st v tv tg c, g, h => by
    simp only [unwrapGoerr, Option.some.injEq] at h
    rw [← h]
  | .foreign _ _ (some c), g, h => by
    simp only [unwrapGoerr] at h
    simp only [goChain]
    exact goChain_unwrap c g h
  | .foreign _ _ none, g, h => by simp [unwrapGoerr] at h
  | .agg _ errs, g, h => by
    simp only [unwrapGoerr] at h
    simp only [goChain]
    exact goChainList_unwrap errs g h

theorem goChainList_unwrap : ∀ (l : List Err) (g : Err),
    unwrapGoerrList l = some g → goChainList l = goChain g
  | [], g, h => by simp [unwrapGoerrList] at h
  | e :: rest, g, h => by
    simp only [unwrapGoerrList] at h
    cases he : unwrapGoerr e with
    | some g' =>
      rw [he] at h
      simp only [Option.some.injEq] at h
      simp only [goChainList, he, Option.isSome_some, if_true]
      exact h ▸ goChain_unwrap e g' he
    | none =>
      rw [he] at h
      simp only [goChainList, he, Option.isSome_none, Bool.false_eq_true, if_false]
      exact goChainList_unwrap rest g h

end

mutual

/-- When `errors.As` finds no goerr node, the traversal chain is empty. -/
theorem goChain_none : ∀ (e : Err), unwrapGoerr e = none → goChain e = []
  | .goErr r m i st v tv tg c, h => by simp [unwrapGoerr] at h
  | .foreign _ _ none, _ => rfl
  | .foreign _ _ (some c), h => by
    simp only [unwrapGoerr] at h
    simp only [goChain]
    exact goChain_none c h
  | .agg _ errs, h => by
    simp only [unwrapGoerr] at h
    simp only [goChain]
    exact goChainList_none errs h

theorem goChainList_none : ∀ (l : List Err), unwrapGoerrList l = none → goChainList l = []
  | [], _ => rfl
  | e :: rest, h => by
    simp only [unwrapGoerrList] at h
    cases he : unwrapGoerr e with
    | some g' => rw [he] at h; exact absurd h (by simp)
    | none =>
      rw [he] at h
      simp only [goChainList, he, Option.isSome_none, Bool.false_eq_true, if_false]
      exact goChainList_none rest h

end

mutual

/-- `errors.As` for `*Error` only ever returns goerr nodes. -/
theorem unwrapGoerr_isGoNode : ∀ (e g : Err), unwrapGoerr e = some g → g.isGoNode = true
  | .goErr r m i st v tv tg c, g, h => by
    simp only [unwrapGoerr, Option.some.injEq] at h
    rw [← h]
    rfl
  | .foreign _ _ (some c), g, h => by
    simp only [unwrapGoerr] at h
    exact unwrapGoerr_isGoNode c g h
  | .foreign _ _ none, g, h => by simp [unwrapGoerr] at h
  | .agg _ errs, g, h => by
    simp only [unwrapGoerr] at h
    exact unwrapGoerrList_isGoNode errs g h

theorem unwrapGoerrList_isGoNode : ∀ (l : List Err) (g : Err),
    unwrapGoerrList l = some g → g.isGoNode = true
  | [], g, h => by simp [unwrapGoerrList] at h
  | e :: rest, g, h => by
    simp only [unwrapGoerrList] at h
    cases he : unwrapGoerr e with
    | some g' =>
      rw [he] at h
      simp only [Option.some.injEq] at h
      exact h ▸ unwrapGoerr_isGoNode e g' he
    | none =>
      rw [he] at h
      exact unwrapGoerrList_isGoNode rest g h

end

/-- On a goerr node, the method `mergedValues` and the traversal view
coincide. -/
theorem mergedValues_eq_via (g : Err) (h : g.isGoNode = true) :
    mergedValues g = mergedValuesVia g := by
  cases g with
  | goErr r m i st v tv tg c => rfl
  | foreign r m c => simp [Err.isGoNode] at h
  | agg r l => simp [Err.isGoNode] at h

theorem mergedTypedValues_eq_via (g : Err) (h : g.isGoNode = true) :
    mergedTypedValues g = mergedTypedValuesVia g := by
  cases g with
  | goErr r m i st v tv tg c => rfl
  | foreign r m c => simp [Err.isGoNode] at h
  | agg r l => simp [Err.isGoNode] at h

theorem mergedTags_eq_via (g : Err) (h : g.isGoNode = true) :
    mergedTags g = mergedTagsVia g := by
  cases g with
  | goErr r m i st v tv tg c => rfl
  | foreign r m c => simp [Err.isGoNode] at h
  | agg r l => simp [Err.isGoNode] at h

/-! ## Store-level model of the aggregate's slice copying

`(*Errors).Unwrap` and `(*Errors).Errors` build their result with
`result := make([]error, len(x.errs)); copy(result, x.errs); return result` —
a freshly allocated slice.  To make the aliasing content of that statement
expressible, slices of errors live in an explicit store and are addressed by
references; an aggregate holds the reference to its member slice. -/

structure Store where
  data : List (List Err)

/-- Allocate a fresh slice holding `l`; returns the updated store and the
fresh reference. -/
def Store.alloc (st : Store) (l : List Err) : Store × Nat :=
  ({ data := st.data ++ [l] }, st.data.length)

/-- Read a slice. -/
def Store.read (st : Store) (r : Nat) : List Err :=
  (st.data[r]?).getD []

/-- In-place update of one element of the slice at `r` (the "mutate the
returned slice" step of the claim). -/
def Store.writeElem (st : Store) (r i : Nat) (v : Err) : Store :=
  { data := st.data.set r (((st.data[r]?).getD []).set i v) }

/-- `(*Errors).Unwrap()` at store level: nil receiver or no members gives the
nil slice; otherwise `make` + `copy` allocates a fresh slice with the same
contents. -/
def Errors.unwrapS (st : Store) (x : Option Nat) : Store × Option Nat :=
  match x with
  | none => (st, none)
  | some r =>
    let l := st.read r
    if l.isEmpty then (st, none)
    else
      let a := st.alloc l
      (a.1, some a.2)

/-- `(*Errors).Errors()` at store level: same body as `Unwrap()`. -/
def Errors.errorsS (st : Store) (x : Option Nat) : Store × Option Nat :=
  match x with
  | none => (st, none)
  | some r =>
    let l := st.read r
    if l.isEmpty then (st, none)
    else
      let a := st.alloc l
      (a.1, some a.2)

/-- `(*Errors).Len()` at store level. -/
def Errors.lenS (st : Store) (x : Option Nat) : Nat :=
  match x with
  | none => 0
  | some r => (st.read r).length

/-- `(*Errors).Error()` at store level. -/
def Errors.errorS (st : Store) (x : Option Nat) : String :=
  match x with
  | none => ""
  | some r => Errors.error (some (st.read r))

/-- `(*Error).Values()`: returns `x.mergedValues()`. -/
def Error.values (x : Err) : StrMap := mergedValues x

/-- `(*Error).TypedValues()`: returns `x.mergedTypedValues()`. -/
def Error.typedValues (x : Err) : StrMap := mergedTypedValues x

/-! # Claims -/

/-- C5. `Error()` returns the local message when the error has no cause
(including an error built by `Wrap` with a nil cause, under any options),
and otherwise the local message, `": "`, and the cause's `Error()` string,
recursively; in particular
`Wrap(Wrap(New("blue"), "orange"), "red").Error() == "red: orange: blue"`. -/
theorem C5_error_message_chain :
    (∀ r m i st v tv tg, errError (.goErr r m i st v tv tg none) = m)
    ∧ (∀ r st msg opts, errError (Wrap r st none msg opts) = msg)
    ∧ (∀ r m i st v tv tg c,
        errError (.goErr r m i st v tv tg (some c)) = m ++ ": " ++ errError c)
    ∧ (∀ r1 r2 r3 st1 st2 st3,
        errError (Wrap r3 st3
          (some (Wrap r2 st2 (some (New r1 st1 "blue" [])) "orange" [])) "red" [])
          = "red: orange: blue") := by
  refine ⟨fun _ _ _ _ _ _ _ => rfl, fun _ _ _ _ => rfl,
    fun _ _ _ _ _ _ _ _ => rfl, fun _ _ _ _ _ _ => rfl⟩

/-- C7. Every `*Errors` method on a nil receiver behaves as on an empty
aggregate and never panics: `Len() == 0`, `Error() == ""`,
`IsEmpty() == true`, `HasTag` is false for every tag, `Is` and `As` are false
for every target, `ErrorOrNil() == nil`, and `Unwrap()`/`Errors()` return the
nil slice — each agreeing with the corresponding call on an allocated
zero-member aggregate. -/
theorem C7_aggregate_nil_safety :
    Errors.len none = 0 ∧ Errors.len (some []) = 0
    ∧ Errors.error none = "" ∧ Errors.error (some []) = ""
    ∧ Errors.isEmpty none = true ∧ Errors.isEmpty (some []) = true
    ∧ (∀ t, Errors.hasTag none t = false ∧ Errors.hasTag (some []) t = false)
    ∧ (∀ target, Errors.is none target = false ∧ Errors.is (some []) target = false)
    ∧ (∀ p, Errors.as none p = false ∧ Errors.as (some []) p = false)
    ∧ Errors.errorOrNil none = none ∧ Errors.errorOrNil (some []) = none
    ∧ Errors.unwrap none = none ∧ Errors.unwrap (some []) = none
    ∧ Errors.errors none = none ∧ Errors.errors (some []) = none := by
  refine ⟨rfl, rfl, rfl, rfl, rfl, rfl, fun _ => ⟨rfl, rfl⟩, fun _ => ⟨rfl, rfl⟩,
    fun _ => ⟨rfl, rfl⟩, rfl, rfl, rfl, rfl, rfl, rfl⟩

/-- C8. On a goerr error with a captured stack of length `L`,
`UnstackN(n)` leaves `L - n` frames — `max 0 (L - n)` over the integers,
never negative — removing the `n` frames closest to the capture point;
`Unstack()` equals `UnstackN(1)`; and trimming past the end
(`n = L + k`) yields the empty stack rather than an error. -/
theorem C8_unstack_trim :
    (∀ r m i (st : List Frame) v tv tg c (n : Nat),
        (errStack (Error.unstackN (.goErr r m i st v tv tg c) n)).length = st.length - n
        ∧ ((errStack (Error.unstackN (.goErr r m i st v tv tg c) n)).length : Int)
            = max 0 ((st.length : Int) - (n : Int)))
    ∧ (∀ x : Err, Error.unstack x = Error.unstackN x 1)
    ∧ (∀ r m i (st : List Frame) v tv tg c (k : Nat),
        errStack (Error.unstackN (.goErr r m i st v tv tg c) (st.length + k)) = []) := by
  refine ⟨fun r m i st v tv tg c n => ⟨?_, ?_⟩, fun x => ?_, fun r m i st v tv tg c k => ?_⟩
  · simp [Error.unstackN, errStack, unstack]
  · simp only [Error.unstackN, errStack, unstack, List.length_drop]
    omega
  · cases x <;> rfl
  · simp [Error.unstackN, errStack, unstack, List.drop_eq_nil_iff]

/-- C4. `(*Error).Is(target)` is true exactly when either `target`
unwraps (by `errors.As`) to a goerr node whose id equals this error's
non-empty id, or `target` is the very same reference.  Consequently
`New("a", ID("X"))` and `New("b", ID("X"))` (non-empty `X`) are mutually
`Is`-equal regardless of allocation, two `New` calls without ID (distinct
allocations) are never `Is`-equal to each other, each error is `Is`-equal
to itself, and an empty id is never used for comparison. -/
theorem C4_is_identity :
    (∀ x target : Err, Error.is x target = true ↔
        ((∃ g, unwrapGoerr target = some g ∧ errId x ≠ "" ∧ errId x = errId g)
          ∨ refEq x target = true))
    ∧ (∀ (X : String), X ≠ "" → ∀ r1 r2 st1 st2,
        Error.is (New r1 st1 "a" [OID X]) (New r2 st2 "b" [OID X]) = true
        ∧ Error.is (New r2 st2 "b" [OID X]) (New r1 st1 "a" [OID X]) = true)
    ∧ (∀ r1 r2 st1 st2 m1 m2, r1 ≠ r2 →
        Error.is (New r1 st1 m1 []) (New r2 st2 m2 []) = false)
    ∧ (∀ r st m opts, Error.is (New r st m opts) (New r st m opts) = true) := by
  constructor
  · intro x target
    simp only [Error.is, Bool.or_eq_true]
    constructor
    · intro h
      rcases h with h | h
      · cases hu : unwrapGoerr target with
        | some g =>
          rw [hu] at h
          simp only [Bool.and_eq_true, bne_iff_ne, beq_iff_eq] at h
          exact Or.inl ⟨g, rfl, h.1, h.2⟩
        | none => rw [hu] at h; exact absurd h (by simp)
      · exact Or.inr h
    · intro h
      rcases h with ⟨g, hu, hne, heq⟩ | h
      · left
        rw [hu]
        simp only [Bool.and_eq_true, bne_iff_ne, beq_iff_eq]
        exact ⟨hne, heq⟩
      · exact Or.inr h
  · refine ⟨fun X hX r1 r2 st1 st2 => ⟨?_, ?_⟩, fun r1 r2 st1 st2 m1 m2 hne => ?_,
      fun r st m opts => ?_⟩
    · simp [Error.is, New, newError, ErrCore.toErr, OID, unwrapGoerr, errId, hX]
    · simp [Error.is, New, newError, ErrCore.toErr, OID, unwrapGoerr, errId, hX]
    · simp [Error.is, New, newError, ErrCore.toErr, unwrapGoerr, errId, refEq, hne]
    · simp [Error.is, refEq, New, ErrCore.toErr]

/-- Witness for C4 at concrete inputs. -/
theorem C4_is_identity_witness :
    ("X" ≠ "" ∧ (1 : Nat) ≠ 2)
    ∧ Error.is (New 1 [] "a" [OID "X"]) (New 2 [] "b" [OID "X"]) = true
    ∧ Error.is (New 2 [] "b" [OID "X"]) (New 1 [] "a" [OID "X"]) = true
    ∧ Error.is (New 1 [] "m1" []) (New 2 [] "m2" []) = false := by
  have h := C4_is_identity
  have h2 := h.2.1 "X" (by decide) 1 2 [] []
  exact ⟨⟨by decide, by decide⟩, h2.1, h2.2, h.2.2.1 1 2 [] [] "m1" "m2" (by decide)⟩

/-- C1. `Values()` on a goerr node is, keywise, the first hit along the
traversal chain read from the outermost node inward — i.e. the union of all
per-node value maps merged deepest-cause-first with shallower nodes winning
on collision.  Hence for `outer(wrap) → inner(wrap) → base(new)` all setting
the same key, the outer error's value wins, and with pairwise-distinct keys
every key set anywhere in the chain is present with its own value. -/
theorem C1_values_merge :
    (∀ r m i st v tv tg c (k : String),
        Error.values (.goErr r m i st v tv tg c) k
          = (goChain (.goErr r m i st v tv tg c)).findSome? (fun n => localValues n k))
    ∧ (∀ (k : String) (v1 v2 v3 : AnyVal) r1 r2 r3 st1 st2 st3 m1 m2 m3,
        Error.values (Wrap r3 st3
            (some (Wrap r2 st2 (some (New r1 st1 m1 [OValue k v1])) m2 [OValue k v2]))
            m3 [OValue k v3]) k = some v3)
    ∧ (∀ (k1 k2 k3 : String) (v1 v2 v3 : AnyVal) r1 r2 r3 st1 st2 st3 m1 m2 m3,
        k1 ≠ k2 → k1 ≠ k3 → k2 ≠ k3 →
        Error.values (Wrap r3 st3
            (some (Wrap r2 st2 (some (New r1 st1 m1 [OValue k1 v1])) m2 [OValue k2 v2]))
            m3 [OValue k3 v3]) k1 = some v1
        ∧ Error.values (Wrap r3 st3
            (some (Wrap r2 st2 (some (New r1 st1 m1 [OValue k1 v1])) m2 [OValue k2 v2]))
            m3 [OValue k3 v3]) k2 = some v2
        ∧ Error.values (Wrap r3 st3
            (some (Wrap r2 st2 (some (New r1 st1 m1 [OValue k1 v1])) m2 [OValue k2 v2]))
            m3 [OValue k3 v3]) k3 = some v3) := by
  refine ⟨fun r m i st v tv tg c k => mergedValuesVia_chain _ k,
    fun k v1 v2 v3 r1 r2 r3 st1 st2 st3 m1 m2 m3 => ?_,
    fun k1 k2 k3 v1 v2 v3 r1 r2 r3 st1 st2 st3 m1 m2 m3 h12 h13 h23 => ⟨?_, ?_, ?_⟩⟩
  · simp [Error.values, Wrap, New, newError, ErrCore.toErr, mergedValues, mergedValuesVia,
      mergedValuesCause, unwrapGoerr, StrMap.override, StrMap.insert, StrMap.empty, OValue]
  · simp [Error.values, Wrap, New, newError, ErrCore.toErr, mergedValues, mergedValuesVia,
      mergedValuesCause, unwrapGoerr, StrMap.override, StrMap.insert, StrMap.empty, OValue,
      h12, h13]
  · simp [Error.values, Wrap, New, newError, ErrCore.toErr, mergedValues, mergedValuesVia,
      mergedValuesCause, unwrapGoerr, StrMap.override, StrMap.insert, StrMap.empty, OValue,
      h23]
  · simp [Error.values, Wrap, New, newError, ErrCore.toErr, mergedValues, mergedValuesVia,
      mergedValuesCause, unwrapGoerr, StrMap.override, StrMap.insert, StrMap.empty, OValue]

/-- Witness for C1 at concrete inputs (keys "a" ≠ "b" ≠ "c"). -/
theorem C1_values_merge_witness :
    ("a" ≠ ("b" : String) ∧ "a" ≠ ("c" : String) ∧ "b" ≠ ("c" : String))
    ∧ Error.values (Wrap 3 []
        (some (Wrap 2 [] (some (New 1 [] "m1" [OValue "a" (.vint 1)])) "m2"
          [OValue "b" (.vint 2)]))
        "m3" [OValue "c" (.vint 3)]) "a" = some (.vint 1)
    ∧ Error.values (Wrap 3 []
        (some (Wrap 2 [] (some (New 1 [] "m1" [OValue "a" (.vint 1)])) "m2"
          [OValue "b" (.vint 2)]))
        "m3" [OValue "c" (.vint 3)]) "b" = some (.vint 2)
    ∧ Error.values (Wrap 3 []
        (some (Wrap 2 [] (some (New 1 [] "m1" [OValue "a" (.vint 1)])) "m2"
          [OValue "b" (.vint 2)]))
        "m3" [OValue "c" (.vint 3)]) "c" = some (.vint 3) := by
  have h := C1_values_merge.2.2 "a" "b" "c" (.vint 1) (.vint 2) (.vint 3)
    1 2 3 [] [] [] "m1" "m2" "m3" (by decide) (by decide) (by decide)
  exact ⟨⟨by decide, by decide, by decide⟩, h.1, h.2.1, h.2.2⟩

/-- C2. `GetTypedValue` is the type-check applied to the raw value stored
at the first chain node (outermost first) that carries the key's name at all:
a type match yields the value, a mismatch yields not-found without searching
deeper.  In the two-key scenario of the claim (string key and int key sharing
the name "k"), the outer int value is found and the string lookup does not
fall through to the base's string value; a name set nowhere in the chain is
not found. -/
theorem C2_typed_lookup :
    (∀ (key : TypedKey) r m i st v tv tg c,
        GetTypedValue (.goErr r m i st v tv tg c) key
          = ((goChain (.goErr r m i st v tv tg c)).findSome?
                (fun n => localTypedValues n key.name)).bind
              (fun val => if val.ty = key.ty then some val else none))
    ∧ (∀ r1 r2 st1 st2,
        GetTypedValue
            (Wrap r2 st2 (some (New r1 st1 "e" [OTypedValue ⟨"k", .tstr⟩ (.vstr "s")]))
              "m" [OTypedValue ⟨"k", .tint⟩ (.vint 5)])
            ⟨"k", .tint⟩ = some (.vint 5)
        ∧ GetTypedValue
            (Wrap r2 st2 (some (New r1 st1 "e" [OTypedValue ⟨"k", .tstr⟩ (.vstr "s")]))
              "m" [OTypedValue ⟨"k", .tint⟩ (.vint 5)])
            ⟨"k", .tstr⟩ = none)
    ∧ (∀ (key : TypedKey) (x : Err),
        (∀ n ∈ goChain x, localTypedValues n key.name = none) →
        GetTypedValue x key = none) := by
  refine ⟨fun key r m i st v tv tg c => getTypedVia_chain key _,
    fun r1 r2 st1 st2 => ⟨rfl, rfl⟩,
    fun key x h => ?_⟩
  show getTypedVia key x = none
  rw [getTypedVia_chain key x, List.findSome?_eq_none_iff.mpr h]
  rfl

/-- Witness for C2 at a concrete input (a name set nowhere returns
not-found). -/
theorem C2_typed_lookup_witness :
    (∀ n ∈ goChain (New 0 [] "e" []), localTypedValues n "q" = none)
    ∧ GetTypedValue (New 0 [] "e" []) ⟨"q", .tint⟩ = none := by
  refine ⟨by decide, C2_typed_lookup.2.2 ⟨"q", .tint⟩ (New 0 [] "e" []) (by decide)⟩

/-- C3 counterexample. The claim says the merge traversal stops at a
foreign cause even when the foreign error wraps a deeper goerr error, so the
outer `Values()` would contain no entry for "k" here — but `mergedValues`
finds the goerr base *through* the foreign wrapper (`Unwrap` is `errors.As`)
and does return the base's entry. -/
theorem C3_counterexample :
    Error.values
        (Wrap 2 [] (some (.foreign 1 "mid"
          (some (New 0 [] "base" [OValue "k" (.vstr "v")])))) "top" []) "k"
      = some (.vstr "v") := by
  rfl

/-- C3 amended. The merge traversal of `Values()`, `TypedValues()` and
tags does not stop at a foreign cause as such: it resumes at the first goerr
node found anywhere in the cause's unwrap chain (so nodes beyond a foreign
wrapper do contribute), and stops only when no goerr node remains in the
chain, in which case the maps are exactly the local ones.  The foreign error
itself contributes no structured values or tags — only its own `Error()`
string to the message chain. -/
theorem C3_foreign_traversal :
    (∀ r m i st v tv tg (c : Err), unwrapGoerr c = none →
        (∀ k, Error.values (.goErr r m i st v tv tg (some c)) k = v k)
        ∧ (∀ k, Error.typedValues (.goErr r m i st v tv tg (some c)) k = tv k)
        ∧ (∀ t, mergedTags (.goErr r m i st v tv tg (some c)) t = tg t))
    ∧ (∀ r m i st v tv tg (c g : Err), unwrapGoerr c = some g →
        (∀ k, Error.values (.goErr r m i st v tv tg (some c)) k
            = StrMap.override (Error.values g) v k)
        ∧ (∀ k, Error.typedValues (.goErr r m i st v tv tg (some c)) k
            = StrMap.override (Error.typedValues g) tv k)
        ∧ (∀ t, mergedTags (.goErr r m i st v tv tg (some c)) t
            = TagSet.union (mergedTags g) tg t))
    ∧ (∀ r m i st v tv tg rf mf cf,
        errError (.goErr r m i st v tv tg (some (.foreign rf mf cf)))
          = m ++ ": " ++ mf) := by
  refine ⟨fun r m i st v tv tg c hc => ⟨fun k => ?_, fun k => ?_, fun t => ?_⟩,
    fun r m i st v tv tg c g hg => ⟨fun k => ?_, fun k => ?_, fun t => ?_⟩,
    fun r m i st v tv tg rf mf cf => rfl⟩
  · show StrMap.override (mergedValuesCause (some c)) v k = v k
    show StrMap.override (mergedValuesVia c) v k = v k
    rw [StrMap.override]
    cases hv : v k with
    | some val => rfl
    | none => rw [mergedValuesVia_chain c k, goChain_none c hc]; rfl
  · show StrMap.override (mergedTypedValuesCause (some c)) tv k = tv k
    show StrMap.override (mergedTypedValuesVia c) tv k = tv k
    rw [StrMap.override]
    cases hv : tv k with
    | some val => rfl
    | none => rw [mergedTypedValuesVia_chain c k, goChain_none c hc]; rfl
  · show TagSet.union (mergedTagsCause (some c)) tg t = tg t
    show TagSet.union (mergedTagsVia c) tg t = tg t
    rw [TagSet.union, mergedTagsVia_chain c t, goChain_none c hc]
    simp [List.any_nil]
  · show StrMap.override (mergedValuesVia c) v k = _
    simp only [Error.values]
    rw [mergedValues_eq_via g (unwrapGoerr_isGoNode c g hg)]
    have : mergedValuesVia c k = mergedValuesVia g k := by
      rw [mergedValuesVia_chain c k, mergedValuesVia_chain g k, goChain_unwrap c g hg]
    rw [StrMap.override, StrMap.override, this]
  · show StrMap.override (mergedTypedValuesVia c) tv k = _
    simp only [Error.typedValues]
    rw [mergedTypedValues_eq_via g (unwrapGoerr_isGoNode c g hg)]
    have : mergedTypedValuesVia c k = mergedTypedValuesVia g k := by
      rw [mergedTypedValuesVia_chain c k, mergedTypedValuesVia_chain g k,
        goChain_unwrap c g hg]
    rw [StrMap.override, StrMap.override, this]
  · show TagSet.union (mergedTagsVia c) tg t = _
    rw [mergedTags_eq_via g (unwrapGoerr_isGoNode c g hg)]
    have : mergedTagsVia c t = mergedTagsVia g t := by
      rw [mergedTagsVia_chain c t, mergedTagsVia_chain g t, goChain_unwrap c g hg]
    rw [TagSet.union, TagSet.union, this]

/-- Witness for C3's amended statement at concrete inputs: a foreign cause
with no goerr inside stops the merge (opacity), and a foreign cause wrapping
a goerr base resumes the merge at the base. -/
theorem C3_foreign_traversal_witness :
    unwrapGoerr (.foreign 5 "plain" none) = none
    ∧ Error.values (.goErr 6 "top" "" [] (StrMap.empty.insert "a" (.vint 1))
        StrMap.empty TagSet.empty (some (.foreign 5 "plain" none))) "a" = some (.vint 1)
    ∧ unwrapGoerr (.foreign 1 "mid" (some (New 0 [] "base" [OValue "k" (.vstr "v")])))
        = some (New 0 [] "base" [OValue "k" (.vstr "v")])
    ∧ Error.values (.goErr 2 "top" "" [] StrMap.empty StrMap.empty TagSet.empty
        (some (.foreign 1 "mid" (some (New 0 [] "base" [OValue "k" (.vstr "v")]))))) "k"
      = StrMap.override
          (Error.values (New 0 [] "base" [OValue "k" (.vstr "v")])) StrMap.empty "k" := by
  refine ⟨rfl, ?_, rfl, ?_⟩
  · exact ((C3_foreign_traversal.1 6 "top" "" [] (StrMap.empty.insert "a" (.vint 1))
      StrMap.empty TagSet.empty (.foreign 5 "plain" none) rfl).1 "a").trans (by decide)
  · exact (C3_foreign_traversal.2.1 2 "top" "" [] StrMap.empty StrMap.empty TagSet.empty
      (.foreign 1 "mid" (some (New 0 [] "base" [OValue "k" (.vstr "v")])))
      (New 0 [] "base" [OValue "k" (.vstr "v")]) rfl).1 "k"

/-- Whether an error value is a direct `*Errors` aggregate (the dynamic type
check `err.(*Errors)` in `Append`'s loop). -/
def Err.isAgg : Err → Bool
  | .agg _ _ => true
  | _ => false

/-- How many members one argument of `Append` contributes: none for nil, its
member count for a direct aggregate (spliced), one otherwise. -/
def appendContrib : Option Err → Nat
  | none => 0
  | some (.agg _ l) => l.length
  | some _ => 1

/-- Length of `Append`'s accumulation loop. -/
theorem foldl_flattenInto_length (errs : List (Option Err)) :
    ∀ acc : Errs, (errs.foldl flattenInto acc).length
      = acc.length + (errs.map appendContrib).sum := by
  induction errs with
  | nil => intro acc; simp
  | cons oe rest ih =>
    intro acc
    simp only [List.foldl_cons, List.map_cons, List.sum_cons, ih]
    match oe with
    | none => simp [flattenInto, appendContrib]
    | some (.agg r l) => simp [flattenInto, appendContrib]; omega
    | some (.goErr r m i st v tv tg c) => simp [flattenInto, appendContrib]; omega
    | some (.foreign r m c) => simp [flattenInto, appendContrib]; omega

/-- C6 counterexample. The claim's flatten law
`Append(nil, Join(e1,e2), e3).Len() == 3` is stated for arbitrary non-nil
`e3`; but when `e3` is itself an aggregate (here `Join(e3a, e3b)`, non-nil),
`Append` splices its two members, so the result has 4 members, not 3. -/
theorem C6_counterexample :
    Join [some (.foreign 10 "e1" none), some (.foreign 11 "e2" none)]
        = some [.foreign 10 "e1" none, .foreign 11 "e2" none]
    ∧ Join [some (.foreign 12 "e3a" none), some (.foreign 13 "e3b" none)]
        = some [.foreign 12 "e3a" none, .foreign 13 "e3b" none]
    ∧ Errors.len (Append none
        [some (.agg 0 [.foreign 10 "e1" none, .foreign 11 "e2" none]),
         some (.agg 1 [.foreign 12 "e3a" none, .foreign 13 "e3b" none])]) = 4 := by
  exact ⟨rfl, rfl, rfl⟩

/-- C6 amended. `Join` filters out nil entries and returns the nil
aggregate iff every entry was nil, otherwise exactly the non-nil entries in
order without flattening.  `Append` returns `base` unchanged when no
arguments are given; otherwise it allocates a fresh aggregate when `base` is
nil and adds each argument's contribution — nothing for nil entries, a
one-level splice of the members for a direct aggregate argument, and the
single error otherwise.  Consequently
`Append(nil, Join(e1,e2), e3).Len() == 3` for non-nil `e1, e2` and non-nil,
**non-aggregate** `e3` (for an aggregate `e3` its member count is added
instead, as the counterexample shows). -/
theorem C6_join_append :
    (∀ errs : List (Option Err), Join errs = none ↔ ∀ e ∈ errs, e = none)
    ∧ (∀ (errs : List (Option Err)) (l : Errs), Join errs = some l → l = errs.filterMap id)
    ∧ (∀ base : Option Errs, Append base [] = base)
    ∧ (∀ (base : Option Errs) (errs : List (Option Err)), errs ≠ [] →
        Errors.len (Append base errs) = Errors.len base + (errs.map appendContrib).sum)
    ∧ (∀ e1 e2 e3 : Err, ∀ ra : Nat, e3.isAgg = false → ∃ l : Errs,
        Join [some e1, some e2] = some l
        ∧ Errors.len (Append none [some (.agg ra l), some e3]) = 3) := by
  refine ⟨fun errs => ?_, fun errs l h => ?_, fun base => rfl, fun base errs h => ?_,
    fun e1 e2 e3 ra h3 => ?_⟩
  · constructor
    · intro h e he
      cases e with
      | none => rfl
      | some x =>
        exfalso
        have hx : x ∈ errs.filterMap id := List.mem_filterMap.mpr ⟨some x, he, rfl⟩
        have hne : errs.filterMap id ≠ [] := fun hf => by simp [hf] at hx
        rw [Join, if_neg (by simpa [List.isEmpty_iff] using hne)] at h
        exact Option.noConfusion h
    · intro h
      have hf : errs.filterMap id = [] := by
        rw [List.filterMap_eq_nil_iff]
        intro e he
        rw [h e he]
        rfl
      rw [Join, if_pos (by simpa [List.isEmpty_iff] using hf)]
  · rw [Join] at h
    by_cases hf : (errs.filterMap id).isEmpty
    · simp [hf] at h
    · simp only [hf, if_neg, Bool.false_eq_true, not_false_eq_true, if_false,
        Option.some.injEq] at h
      exact h.symm
  · rw [Append, if_neg (by simpa using h)]
    show (errs.foldl flattenInto (base.getD [])).length = _
    rw [foldl_flattenInto_length]
    cases base <;> rfl
  · refine ⟨[e1, e2], rfl, ?_⟩
    show (([some (Err.agg ra [e1, e2]), some e3].foldl flattenInto
      ((none : Option Errs).getD []))).length = 3
    rw [foldl_flattenInto_length]
    cases e3 with
    | goErr r m i st v tv tg c => rfl
    | foreign r m c => rfl
    | agg r l => simp [Err.isAgg] at h3

/-- Witness for C6 at concrete inputs. -/
theorem C6_join_append_witness :
    Join [none, some (.foreign 7 "x" none), none] = some [.foreign 7 "x" none]
    ∧ ([some (.foreign 7 "x" none)] : List (Option Err)) ≠ []
    ∧ Errors.len (Append (some [.foreign 9 "y" none]) [some (.foreign 7 "x" none)])
        = Errors.len (some [.foreign 9 "y" none])
          + ([some (.foreign 7 "x" none)].map appendContrib).sum
    ∧ (Err.foreign 8 "e3" none).isAgg = false
    ∧ ∃ l : Errs,
        Join [some (.foreign 10 "e1" none), some (.foreign 11 "e2" none)] = some l
        ∧ Errors.len (Append none [some (.agg 0 l), some (.foreign 8 "e3" none)]) = 3 := by
  refine ⟨rfl, by simp, ?_, rfl, ?_⟩
  · exact C6_join_append.2.2.2.1 (some [.foreign 9 "y" none])
      [some (.foreign 7 "x" none)] (by simp)
  · exact C6_join_append.2.2.2.2 (.foreign 10 "e1" none) (.foreign 11 "e2" none)
      (.foreign 8 "e3" none) 0 rfl

/-- C9. `x.Wrap(c, options...)` builds a fresh node whose cause is `c`
and whose message, id, values, typed values and tag set are copies of `x`'s
local ones, while `x`'s own cause and stack are not inherited (the new node
carries its own freshly captured stack).  Extra options apply to the copy —
shown for a `Value` option — and in this functional model the copied node is
a value independent of `x`, so no later operation on it can change `x`.
With a non-empty id the wrap result and `x` are mutually `Is`-equal, and the
wrap result's message chain begins with `x`'s message. -/
theorem C9_member_wrap :
    (∀ r m i st v tv tg xc ref2 st2 (c : Option Err),
        Error.wrap (.goErr r m i st v tv tg xc) ref2 st2 c []
          = .goErr ref2 m i st2 v tv tg c)
    ∧ (∀ r m i st v tv tg xc ref2 st2 (c : Option Err) k val,
        Error.wrap (.goErr r m i st v tv tg xc) ref2 st2 c [OValue k val]
          = .goErr ref2 m i st2 (v.insert k val) tv tg c)
    ∧ (∀ r m i st v tv tg xc ref2 st2 (c : Option Err), i ≠ "" →
        Error.is (Error.wrap (.goErr r m i st v tv tg xc) ref2 st2 c [])
            (.goErr r m i st v tv tg xc) = true
        ∧ Error.is (.goErr r m i st v tv tg xc)
            (Error.wrap (.goErr r m i st v tv tg xc) ref2 st2 c []) = true)
    ∧ (∀ r m i st v tv tg xc ref2 st2 (c : Option Err), ∃ suffix : String,
        errError (Error.wrap (.goErr r m i st v tv tg xc) ref2 st2 c [])
          = m ++ suffix) := by
  refine ⟨fun r m i st v tv tg xc ref2 st2 c => rfl,
    fun r m i st v tv tg xc ref2 st2 c k val => rfl,
    fun r m i st v tv tg xc ref2 st2 c hi => ⟨?_, ?_⟩,
    fun r m i st v tv tg xc ref2 st2 c => ?_⟩
  · simp [Error.wrap, Error.is, newError, ErrCore.toErr, unwrapGoerr, errId, hi]
  · simp [Error.wrap, Error.is, newError, ErrCore.toErr, unwrapGoerr, errId, hi]
  · show ∃ suffix, errError (.goErr ref2 m i st2 v tv tg c) = m ++ suffix
    cases c with
    | none => exact ⟨"", by simp [errError]⟩
    | some cc => exact ⟨": " ++ errError cc, by simp [errError, String.append_assoc]⟩

/-- Witness for C9 at concrete inputs. -/
theorem C9_member_wrap_witness :
    ("I" ≠ "")
    ∧ Error.is (Error.wrap (.goErr 0 "msg" "I" [] StrMap.empty StrMap.empty TagSet.empty none)
        7 [] (some (.foreign 3 "c" none)) [])
        (.goErr 0 "msg" "I" [] StrMap.empty StrMap.empty TagSet.empty none) = true
    ∧ Error.is (.goErr 0 "msg" "I" [] StrMap.empty StrMap.empty TagSet.empty none)
        (Error.wrap (.goErr 0 "msg" "I" [] StrMap.empty StrMap.empty TagSet.empty none)
          7 [] (some (.foreign 3 "c" none)) []) = true := by
  have h := C9_member_wrap.2.2.1 0 "msg" "I" [] StrMap.empty StrMap.empty TagSet.empty
    none 7 [] (some (.foreign 3 "c" none)) (by decide)
  exact ⟨by decide, h.1, h.2⟩

/-- Reading the slice just allocated returns exactly its contents. -/
theorem Store.read_alloc_fresh (st : Store) (l : List Err) :
    (st.alloc l).1.read (st.alloc l).2 = l := by
  rw [Store.alloc, Store.read]
  show ((st.data ++ [l])[st.data.length]?).getD [] = l
  rw [List.getElem?_concat_length]
  rfl

/-- Allocation does not disturb previously allocated slices. -/
theorem Store.read_alloc_old (st : Store) (l : List Err) {r : Nat}
    (hr : r < st.data.length) : (st.alloc l).1.read r = st.read r := by
  rw [Store.alloc, Store.read, Store.read]
  show ((st.data ++ [l])[r]?).getD [] = _
  rw [List.getElem?_append, if_pos hr]

/-- Writing one slice does not disturb a different slice. -/
theorem Store.read_writeElem_ne (st : Store) {a b : Nat} (h : a ≠ b) (i : Nat) (v : Err) :
    (st.writeElem a i v).read b = st.read b := by
  rw [Store.writeElem, Store.read, Store.read]
  show ((st.data.set a _)[b]?).getD [] = _
  rw [List.getElem?_set_ne h]

/-- C10. At store level, `Unwrap()` and `Errors()` on a non-empty
aggregate allocate a fresh slice (`r' ≠ r`) whose contents equal the internal
member list in order; mutating any element of the returned slice leaves the
aggregate's own slice — and therefore subsequent `Len()`, `Error()`,
`Unwrap()` and `Errors()` results — unchanged. -/
theorem C10_unwrap_copy :
    ∀ (st : Store) (r : Nat) (l : List Err), r < st.data.length → st.read r = l → l ≠ [] →
      ((Errors.unwrapS st (some r)).2 = some st.data.length
        ∧ (Errors.errorsS st (some r)).2 = some st.data.length
        ∧ st.data.length ≠ r
        ∧ (Errors.unwrapS st (some r)).1.read st.data.length = l
        ∧ (Errors.errorsS st (some r)).1.read st.data.length = l)
      ∧ (∀ (i : Nat) (v : Err),
          (((Errors.unwrapS st (some r)).1.writeElem st.data.length i v).read r = l)
          ∧ Errors.lenS ((Errors.unwrapS st (some r)).1.writeElem st.data.length i v)
              (some r) = l.length
          ∧ Errors.errorS ((Errors.unwrapS st (some r)).1.writeElem st.data.length i v)
              (some r) = Errors.error (some l)
          ∧ (Errors.unwrapS ((Errors.unwrapS st (some r)).1.writeElem st.data.length i v)
              (some r)).1.read
              ((Errors.unwrapS ((Errors.unwrapS st (some r)).1.writeElem st.data.length i v)
                (some r)).2.getD 0) = l) := by
  intro st r l hr hl hne
  have hEmpty : l.isEmpty = false := by
    cases l with
    | nil => exact absurd rfl hne
    | cons a as => rfl
  have hU : Errors.unwrapS st (some r) = ((st.alloc l).1, some (st.alloc l).2) := by
    rw [Errors.unwrapS]
    simp only [hl, hEmpty, Bool.false_eq_true, if_false]
  have hE : Errors.errorsS st (some r) = ((st.alloc l).1, some (st.alloc l).2) := by
    rw [Errors.errorsS]
    simp only [hl, hEmpty, Bool.false_eq_true, if_false]
  have hNe : st.data.length ≠ r := fun h => absurd (h ▸ hr) (lt_irrefl _)
  have hFresh : (st.alloc l).1.read (st.alloc l).2 = l := Store.read_alloc_fresh st l
  have hOld : (st.alloc l).1.read r = st.read r := Store.read_alloc_old st l hr
  refine ⟨⟨by rw [hU]; rfl, by rw [hE]; rfl, hNe, by rw [hU]; exact hFresh,
      by rw [hE]; exact hFresh⟩,
    fun i v => ?_⟩
  have hw : ((st.alloc l).1.writeElem st.data.length i v).read r = l := by
    have : ((st.alloc l).1.writeElem st.data.length i v).read r = (st.alloc l).1.read r :=
      Store.read_writeElem_ne (st.alloc l).1 hNe i v
    rw [this, hOld, hl]
  refine ⟨by rw [hU]; exact hw, ?_, ?_, ?_⟩
  · rw [hU]
    show (((st.alloc l).1.writeElem st.data.length i v).read r).length = l.length
    rw [hw]
  · rw [hU]
    show Errors.error (some (((st.alloc l).1.writeElem st.data.length i v).read r))
      = Errors.error (some l)
    rw [hw]
  · rw [hU]
    have hEmpty2 : (((st.alloc l).1.writeElem st.data.length i v).read r).isEmpty = false := by
      rw [hw]; exact hEmpty
    have hU2 : Errors.unwrapS ((st.alloc l).1.writeElem st.data.length i v) (some r)
        = (((((st.alloc l).1.writeElem st.data.length i v)).alloc
              (((st.alloc l).1.writeElem st.data.length i v).read r)).1,
           some ((((st.alloc l).1.writeElem st.data.length i v)).alloc
              (((st.alloc l).1.writeElem st.data.length i v).read r)).2) := by
      rw [Errors.unwrapS]
      simp only [hEmpty2, Bool.false_eq_true, if_false]
    rw [hU2]
    show ((((st.alloc l).1.writeElem st.data.length i v)).alloc
        (((st.alloc l).1.writeElem st.data.length i v).read r)).1.read
      ((((st.alloc l).1.writeElem st.data.length i v)).alloc
        (((st.alloc l).1.writeElem st.data.length i v).read r)).2 = l
    rw [Store.read_alloc_fresh, hw]

/-- Witness for C10 at a concrete store. -/
theorem C10_unwrap_copy_witness :
    ((0 : Nat) < (Store.mk [[Err.foreign 0 "x" none]]).data.length
      ∧ (Store.mk [[Err.foreign 0 "x" none]]).read 0 = [Err.foreign 0 "x" none]
      ∧ ([Err.foreign 0 "x" none] : List Err) ≠ [])
    ∧ (Errors.unwrapS (Store.mk [[Err.foreign 0 "x" none]]) (some 0)).2 = some 1
    ∧ (∀ (i : Nat) (v : Err),
        ((Errors.unwrapS (Store.mk [[Err.foreign 0 "x" none]]) (some 0)).1.writeElem 1 i v).read 0
          = [Err.foreign 0 "x" none]) := by
  have h := C10_unwrap_copy (Store.mk [[Err.foreign 0 "x" none]]) 0 [Err.foreign 0 "x" none]
    (by decide) rfl (by simp)
  exact ⟨⟨by decide, rfl, by simp⟩, h.1.1, fun i v => (h.2 i v).1⟩

end Goerr
